import Mathlib

/-!
MultiCRC operation (src/core/operations/MultiCRC.mjs)

A shallow embedding of the `MultiCRC` operation: the argument record, the
JavaScript number operators used by `run` and `computeCRC32`, the three
`computeCRC*` routines, `run`, `highlight` and `highlightReverse`.

Conventions of the embedding.

* JavaScript numbers that hold indices, initial values and polynomials are
  integers (`Int`); the numbers the code can receive are the integers that are
  IEEE-754 doubles (`isDouble`).  The bitwise operators `^`, `&`, `~` and `>>`
  convert their operands with ToInt32 and return a signed 32-bit value; they
  are modelled on the unsigned 32-bit pattern with an explicit `% 2^32`.
* The loop counter of `computeCRC32` is a double: `i++` is `i + 1` rounded to
  the nearest double, ties to even (`jsInc`).  It is exact below `2^53`; at
  `2^53` it no longer advances (`2^53 + 1` rounds back to `2^53`), so the loop
  `i <= end` need not end.  The loop is run with fuel: `none` is "no result within this fuel", a call
  returns when some fuel gives `some`, and never returns when no fuel does.
* The difference `end - start` is rounded to the nearest double as well
  (`jsSub`); the comparisons `<`, `<=` and `>` are exact.
* The input byte array is a `List Nat`; `input[i]` outside the array is
  `undefined`, modelled by `none`, and ToInt32 of `undefined` is `0`.
* `throw new OperationError(msg)` is `Except.error msg`.
* Line 75 of the source reads `for ( int i = start ; i <= end ; i++ )`; the
  embedding reads it as the loop over the variable `i` declared on line 73.
-/

set_option autoImplicit false
set_option maxRecDepth 100000

namespace MultiCRC

/-! ## Data model -/

/-- The option list offered for the `Bits` argument (line 10). -/
def BITS_OPTIONS : List String := ["8", "16", "32"]

/-- The argument array of `run`: `args[0] .. args[4]` (lines 100-104). -/
structure Args where
  initial : Int
  polynomial : Int
  bits : String
  start : Int
  end_ : Int
  deriving DecidableEq, Repr

/-- One entry of a highlight position list (`pos[].start`, `pos[].end`). -/
structure Pos where
  start : Int
  end_ : Int
  deriving DecidableEq, Repr

/-- The declared default value of each argument (lines 29-55); the default of
the option argument `Bits` is passed in, it is one entry of `BITS_OPTIONS`. -/
def defaultArgs (bits : String) : Args :=
  { initial := 0x0000, polynomial := 0x8408, bits := bits, start := 0, end_ := 0 }

/-! ## JavaScript 32-bit integer operators -/

/-- ToUint32: the unsigned 32-bit pattern of an integer. -/
def toUint32 (x : Int) : Nat := (x % 4294967296).toNat

/-- The signed 32-bit value of an unsigned 32-bit pattern. -/
def ofUint32 (u : Nat) : Int :=
  if u % 4294967296 < 2147483648 then ((u % 4294967296 : Nat) : Int)
  else ((u % 4294967296 : Nat) : Int) - 4294967296

/-- ToInt32: the signed 32-bit value of an integer. -/
def toInt32 (x : Int) : Int := ofUint32 (toUint32 x)

/-- The operator `a ^ b`. -/
def jsXor (a b : Int) : Int := ofUint32 (toUint32 a ^^^ toUint32 b)

/-- The operator `a & b`. -/
def jsAnd (a b : Int) : Int := ofUint32 (toUint32 a &&& toUint32 b)

/-- The operator `~a`. -/
def jsNot (a : Int) : Int := ofUint32 (4294967295 - toUint32 a)

/-- The operator `a >> n`, the sign-propagating right shift, for `n < 32`. -/
def jsShr (a : Int) (n : Nat) : Int := toInt32 a / (2 : Int) ^ n

/-- The element read `input[ i ]`: `none` is `undefined`. -/
def index (input : List Nat) (i : Int) : Option Nat :=
  if i < 0 then none else input.get? i.toNat

/-- ToInt32 of an element read: `undefined` converts to `0`. -/
def elemToInt (b : Option Nat) : Int :=
  match b with
  | some v => (v : Int)
  | none => 0

/-- Outcomes of `run` are compared by decidable equality. -/
instance instDecidableEqOutcome : DecidableEq (Except String String) := fun a b =>
  match a, b with
  | Except.ok x, Except.ok y =>
    if h : x = y then isTrue (by rw [h]) else isFalse (fun e => h (by cases e; rfl))
  | Except.error x, Except.error y =>
    if h : x = y then isTrue (by rw [h]) else isFalse (fun e => h (by cases e; rfl))
  | Except.ok _, Except.error _ => isFalse (fun e => by cases e)
  | Except.error _, Except.ok _ => isFalse (fun e => by cases e)

/-! ## JavaScript double arithmetic of the loop counter -/

/-- The number of low-order bits a natural number loses when it is written
with the 53 significant bits of a double: `0` below `2^53`, and otherwise the
`e` with `2^52 <= m / 2^e < 2^53`.  The first argument bounds the search. -/
def dropBits : Nat → Nat → Nat
  | 0, _ => 0
  | fuel + 1, m => if m < 9007199254740992 then 0 else dropBits fuel (m / 2) + 1

/-- A natural number rounded to 53 significant bits, to nearest, ties to the
even significand. -/
def roundNat53 (m : Nat) : Nat :=
  let e := dropBits m m
  let q := m / 2 ^ e
  let r := m % 2 ^ e
  if 2 * r < 2 ^ e then q * 2 ^ e
  else if 2 * r = 2 ^ e ∧ q % 2 = 0 then q * 2 ^ e
  else (q + 1) * 2 ^ e

/-- An integer rounded to the nearest double (round to nearest, ties to even;
the sign is kept).  The exponent range is not bounded: the sums `i + 1` of the
counter stay below the largest double. -/
def roundDouble (x : Int) : Int :=
  if 0 ≤ x then (roundNat53 x.toNat : Int) else -(roundNat53 (-x).toNat : Int)

/-- The integer is a double: a number the code can receive. -/
def isDouble (x : Int) : Prop := roundDouble x = x

/-- Being a double is decidable. -/
instance instDecidableIsDouble (x : Int) : Decidable (isDouble x) :=
  inferInstanceAs (Decidable (roundDouble x = x))

/-- The value of `i` after `i++`: the double nearest to `i + 1`. -/
def jsInc (i : Int) : Int := roundDouble (i + 1)

/-- The operator `a - b` on numbers: the double nearest to the difference.
Only its sign is used (line 113), which an overflow would not change. -/
def jsSub (a b : Int) : Int := roundDouble (a - b)

/-! ## The operation -/

/-- Lines 58-61. -/
def computeCRC8 (_input : List Nat) (_initial _polynomial _start _end : Int) : String :=
  "CRC8"

/-- Lines 63-66. -/
def computeCRC16 (_input : List Nat) (_initial _polynomial _start _end : Int) : String :=
  "CRC16"

/-- One iteration of the inner loop body (lines 81-82):
`mask = ~( crc & 1 ); crc = ( crc >> 1 ) ^ ( polynomial & mask );`. -/
def bitStep (polynomial crc : Int) : Int :=
  let mask := jsNot (jsAnd crc 1)
  jsXor (jsShr crc 1) (jsAnd polynomial mask)

/-- The inner loop `for ( j = 7 ; j >= 0 ; j-- )` (lines 79-83), `n` iterations
left to run. -/
def bitLoop (polynomial : Int) : Nat → Int → Int
  | 0, crc => crc
  | n + 1, crc => bitLoop polynomial n (bitStep polynomial crc)

/-- The body of the outer loop for the index `i` (lines 77-83). -/
def byteStep (input : List Nat) (polynomial : Int) (i : Int) (crc : Int) : Int :=
  let byte := index input i
  let crc := jsXor crc (elemToInt byte)
  bitLoop polynomial 8 crc

/-- The outer loop `for ( i = start ; i <= end ; i++ )` (lines 75-84) from the
counter `i` and the register `crc`: while `i <= end` the body runs and `i++`
follows; when the test fails the register is the result.  The first argument is
the fuel, one unit for each evaluation of the test; `none` when it runs out. -/
def byteLoop (input : List Nat) (polynomial end_ : Int) : Nat → Int → Int → Option Int
  | 0, _, _ => none
  | fuel + 1, i, crc =>
    if i ≤ end_ then
      byteLoop input polynomial end_ fuel (jsInc i) (byteStep input polynomial i crc)
    else some crc

/-- Line 70, `var crc = initial;`: the register before the loop. -/
def computeCRC32_crc0 (initial : Int) : Int := initial

/-- The value of the local variable `crc` of `computeCRC32` when its loop has
ended (line 85); `none` when the loop has not ended within the fuel. -/
def computeCRC32_crc (fuel : Nat) (input : List Nat) (initial polynomial start end_ : Int) :
    Option Int :=
  byteLoop input polynomial end_ fuel start (computeCRC32_crc0 initial)

/-- Lines 68-87: the loop is run, its register is dropped and the text "CRC32"
is returned; `none` when the loop has not ended within the fuel. -/
def computeCRC32 (fuel : Nat) (input : List Nat) (initial polynomial start end_ : Int) :
    Option String :=
  match computeCRC32_crc fuel input initial polynomial start end_ with
  | some _crc => some "CRC32"
  | none => none

/-- Lines 99-137; `none` when the call of `computeCRC32` has not returned
within the fuel. -/
def run (fuel : Nat) (input : List Nat) (args : Args) : Option (Except String String) :=
  let initial := args.initial
  let polynomial := args.polynomial
  let bits := args.bits
  let start := args.start
  let end_ := args.end_
  if end_ < start then
    some (Except.error "End index must be larger that start index.")
  else if jsSub end_ start > 0 then
    if bits = "8" then
      some (Except.ok (computeCRC8 input initial polynomial start end_))
    else if bits = "16" then
      some (Except.ok (computeCRC16 input initial polynomial start end_))
    else if bits = "32" then
      match computeCRC32 fuel input initial polynomial start end_ with
      | some output => some (Except.ok output)
      | none => none
    else
      some (Except.error "CRC size must be 8, 16 or 32 bits.")
  else
    some (Except.error "Length of data to compute CRC over must be greater than 0.")

/-- Lines 148-150. -/
def highlight (pos : List Pos) (_args : Args) : List Pos := pos

/-- Lines 161-163. -/
def highlightReverse (pos : List Pos) (_args : Args) : List Pos := pos

/-- The routines `run` can call (lines 118, 121, 124). -/
inductive Routine where
  | crc8
  | crc16
  | crc32
  deriving DecidableEq, Repr

/-- Lines 99-137 once more, with the list of the `computeCRC*` calls the
branch taken makes next to its outcome: a call is made on lines 118, 121 and
124 only, each in its own case of the switch. -/
def runTraced (fuel : Nat) (input : List Nat) (args : Args) :
    List Routine × Option (Except String String) :=
  let initial := args.initial
  let polynomial := args.polynomial
  let bits := args.bits
  let start := args.start
  let end_ := args.end_
  if end_ < start then
    ([], some (Except.error "End index must be larger that start index."))
  else if jsSub end_ start > 0 then
    if bits = "8" then
      ([Routine.crc8], some (Except.ok (computeCRC8 input initial polynomial start end_)))
    else if bits = "16" then
      ([Routine.crc16], some (Except.ok (computeCRC16 input initial polynomial start end_)))
    else if bits = "32" then
      ([Routine.crc32],
        match computeCRC32 fuel input initial polynomial start end_ with
        | some output => some (Except.ok output)
        | none => none)
    else
      ([], some (Except.error "CRC size must be 8, 16 or 32 bits."))
  else
    ([], some (Except.error "Length of data to compute CRC over must be greater than 0."))

/-! ## The reduction the specification describes

These definitions follow the words of the specification (section 4.1), not the
source; they are what the source is compared with. -/

/-- The register mask `M = 2^w - 1` is applied as `% 2^w`. -/
def specMask (w : Nat) (x : Nat) : Nat := x % 2 ^ w

/-- One reflected reduction step: `(crc >> 1) XOR polynomial` when the low bit
of `crc` is 1, else `crc >> 1`, masked to `w` bits. -/
def specBitStep (w : Nat) (polynomial crc : Nat) : Nat :=
  if crc % 2 = 1 then specMask w ((crc >>> 1) ^^^ polynomial) else specMask w (crc >>> 1)

/-- Eight reduction steps. -/
def specBitLoop (w : Nat) (polynomial : Nat) : Nat → Nat → Nat
  | 0, crc => crc
  | n + 1, crc => specBitLoop w polynomial n (specBitStep w polynomial crc)

/-- The register after the bytes `bs`: each byte is XORed in and followed by
eight reduction steps. -/
def specBytes (w : Nat) (polynomial : Nat) : List Nat → Nat → Nat
  | [], crc => crc
  | b :: bs, crc => specBytes w polynomial bs (specBitLoop w polynomial 8 (specMask w (crc ^^^ b)))

/-- The bytes at the indices `start .. end` inclusive. -/
def specRange (input : List Nat) (start end_ : Nat) : List Nat :=
  (input.drop start).take (end_ + 1 - start)

/-- The register the specification's reduction ends with. -/
def specCRC (w : Nat) (input : List Nat) (initial polynomial : Int) (start end_ : Nat) : Nat :=
  specBytes w (polynomial % 2 ^ w).toNat (specRange input start end_)
    (initial % 2 ^ w).toNat

/-- A hexadecimal digit. -/
def isHexDigit (c : Char) : Bool :=
  c.isDigit || ('a' ≤ c && c ≤ 'f') || ('A' ≤ c && c ≤ 'F')

/-- The numeral of `v` in base 16, zero-padded on the left to `digits` digits. -/
def hexPad (digits : Nat) (v : Nat) : String :=
  let ds := Nat.toDigits 16 v
  String.mk (List.replicate (digits - ds.length) '0' ++ ds)

/-- The register width named by a `Bits` option. -/
def widthOf (bits : String) : Nat :=
  if bits = "8" then 8 else if bits = "16" then 16 else if bits = "32" then 32 else 0

/-- The checksum string the specification asks `run` to return. -/
def specRun (input : List Nat) (args : Args) : String :=
  hexPad (widthOf args.bits / 4)
    (specCRC (widthOf args.bits) input args.initial args.polynomial
      args.start.toNat args.end_.toNat)

/-- The input of the reference scenario: the ASCII bytes of `"123456789"`. -/
def check123456789 : List Nat := [0x31, 0x32, 0x33, 0x34, 0x35, 0x36, 0x37, 0x38, 0x39]

/-! ## Auxiliary lemmas: the loop counter -/

/-- Below `2^53` no bit is dropped. -/
theorem dropBits_of_lt (fuel m : Nat) (h : m < 9007199254740992) : dropBits fuel m = 0 := by
  cases fuel with
  | zero => rfl
  | succ n => simp [dropBits, h]

/-- Natural numbers below `2^53` are exact. -/
theorem roundNat53_of_lt (m : Nat) (h : m < 9007199254740992) : roundNat53 m = m := by
  simp [roundNat53, dropBits_of_lt m m h, Nat.mod_one]

/-- The bounds that fix the number of dropped bits. -/
theorem dropBits_spec :
    ∀ (fuel m : Nat), m ≤ fuel →
      m < 9007199254740992 * 2 ^ dropBits fuel m
        ∧ (9007199254740992 ≤ m →
            4503599627370496 * 2 ^ dropBits fuel m ≤ m ∧ 1 ≤ dropBits fuel m) := by
  intro fuel
  induction fuel with
  | zero =>
    intro m hm
    have : m = 0 := by omega
    subst this
    simp [dropBits]
  | succ n ih =>
    intro m hm
    by_cases hlt : m < 9007199254740992
    · simp only [dropBits, if_pos hlt, pow_zero]
      omega
    · simp only [dropBits, if_neg hlt]
      have hhalf : m / 2 ≤ n := by omega
      obtain ⟨h1, h2⟩ := ih (m / 2) hhalf
      rw [pow_succ]
      refine ⟨by omega, fun _ => ⟨?_, by omega⟩⟩
      by_cases hbig : 9007199254740992 ≤ m / 2
      · have := (h2 hbig).1
        omega
      · rw [dropBits_of_lt n (m / 2) (by omega)]
        simp only [pow_zero]
        omega

/-- Powers of two are positive. -/
theorem two_pow_pos (e : Nat) : 0 < 2 ^ e := Nat.pow_pos (by decide)

/-- The rounded number is a multiple of the dropped power of two. -/
theorem roundNat53_dvd (m : Nat) : 2 ^ dropBits m m ∣ roundNat53 m := by
  unfold roundNat53
  simp only []
  split_ifs <;> exact Dvd.intro_left _ rfl

/-- Rounding does not go below the truncated number. -/
theorem roundNat53_ge (m : Nat) : m / 2 ^ dropBits m m * 2 ^ dropBits m m ≤ roundNat53 m := by
  unfold roundNat53
  simp only []
  split_ifs
  · exact le_refl _
  · exact le_refl _
  · exact Nat.mul_le_mul_right _ (Nat.le_succ _)

/-- Rounding does not go above the next multiple. -/
theorem roundNat53_le (m : Nat) :
    roundNat53 m ≤ (m / 2 ^ dropBits m m + 1) * 2 ^ dropBits m m := by
  unfold roundNat53
  simp only []
  split_ifs
  · exact Nat.mul_le_mul_right _ (Nat.le_succ _)
  · exact Nat.mul_le_mul_right _ (Nat.le_succ _)
  · exact le_refl _

/-- A multiple of the dropped power of two is exact. -/
theorem roundNat53_of_dvd (m : Nat) (h : 2 ^ dropBits m m ∣ m) : roundNat53 m = m := by
  have hr : m % 2 ^ dropBits m m = 0 := Nat.mod_eq_zero_of_dvd h
  unfold roundNat53
  simp only [hr, Nat.mul_zero, two_pow_pos, if_true]
  exact Nat.div_mul_cancel h

/-- A later power of two is at least twice an earlier one. -/
theorem two_mul_pow_le (a b : Nat) (h : a < b) : 2 * 2 ^ a ≤ 2 ^ b := by
  have : 2 ^ (a + 1) ≤ 2 ^ b := Nat.pow_le_pow_right (by decide) h
  rw [pow_succ] at this
  omega

/-- Rounding twice is rounding once. -/
theorem roundNat53_idem (m : Nat) : roundNat53 (roundNat53 m) = roundNat53 m := by
  apply roundNat53_of_dvd
  have hK := roundNat53_dvd m
  have hup := roundNat53_le m
  have hspec := dropBits_spec m m (le_refl m)
  have hspecy := dropBits_spec (roundNat53 m) (roundNat53 m) (le_refl _)
  generalize roundNat53 m = y at hK hup hspecy ⊢
  by_cases hle : dropBits y y ≤ dropBits m m
  · exact dvd_trans (pow_dvd_pow 2 hle) hK
  · have hlt : dropBits m m < dropBits y y := by omega
    have h2 := two_mul_pow_le _ _ hlt
    have hy : 9007199254740992 ≤ y := by
      by_contra hc
      rw [dropBits_of_lt y y (by omega)] at hlt
      omega
    have hlow := (hspecy.2 hy).1
    have hq : m / 2 ^ dropBits m m < 9007199254740992 := by
      rw [Nat.div_lt_iff_lt_mul (two_pow_pos _)]
      exact hspec.1
    have hq2 : (m / 2 ^ dropBits m m + 1) * 2 ^ dropBits m m
        ≤ 9007199254740992 * 2 ^ dropBits m m :=
      Nat.mul_le_mul_right _ hq
    have hyeq : y = 4503599627370496 * 2 ^ dropBits y y := by omega
    exact Dvd.intro_left _ hyeq.symm

/-- The step up from a double does not go below it. -/
theorem roundNat53_succ_ge (m : Nat) (hm : roundNat53 m = m) : m ≤ roundNat53 (m + 1) := by
  have hK := roundNat53_dvd m
  rw [hm] at hK
  have hspec := dropBits_spec m m (le_refl m)
  have hspecx := dropBits_spec (m + 1) (m + 1) (le_refl _)
  by_cases hle : dropBits (m + 1) (m + 1) ≤ dropBits m m
  · obtain ⟨c, hc⟩ := dvd_trans (pow_dvd_pow 2 hle) hK
    have hq : c ≤ (m + 1) / 2 ^ dropBits (m + 1) (m + 1) := by
      rw [Nat.le_div_iff_mul_le (two_pow_pos _)]
      rw [Nat.mul_comm]
      omega
    have hm2 : m = c * 2 ^ dropBits (m + 1) (m + 1) := by
      rw [Nat.mul_comm]
      exact hc
    calc m = c * 2 ^ dropBits (m + 1) (m + 1) := hm2
      _ ≤ (m + 1) / 2 ^ dropBits (m + 1) (m + 1) * 2 ^ dropBits (m + 1) (m + 1) :=
          Nat.mul_le_mul_right _ hq
      _ ≤ roundNat53 (m + 1) := roundNat53_ge (m + 1)
  · have hlt : dropBits m m < dropBits (m + 1) (m + 1) := by omega
    have h2 := two_mul_pow_le _ _ hlt
    have hx : 9007199254740992 ≤ m + 1 := by
      by_contra hc
      rw [dropBits_of_lt (m + 1) (m + 1) (by omega)] at hlt
      omega
    have hlow := (hspecx.2 hx).1
    have hup := hspec.1
    have hxeq : m + 1 = 4503599627370496 * 2 ^ dropBits (m + 1) (m + 1) := by omega
    rw [roundNat53_of_dvd (m + 1) (Dvd.intro_left _ hxeq.symm)]
    omega

/-- The step down from a double does not go above it. -/
theorem roundNat53_pred_le (m : Nat) (hm : roundNat53 m = m) (hpos : 0 < m) :
    roundNat53 (m - 1) ≤ m := by
  have hK := roundNat53_dvd m
  rw [hm] at hK
  have hspec := dropBits_spec m m (le_refl m)
  have hspecx := dropBits_spec (m - 1) (m - 1) (le_refl _)
  have hle : dropBits (m - 1) (m - 1) ≤ dropBits m m := by
    by_contra hc
    have hlt : dropBits m m < dropBits (m - 1) (m - 1) := by omega
    have h2 := two_mul_pow_le _ _ hlt
    have hx : 9007199254740992 ≤ m - 1 := by
      by_contra hc2
      rw [dropBits_of_lt (m - 1) (m - 1) (by omega)] at hlt
      omega
    have hlow := (hspecx.2 hx).1
    have hup := hspec.1
    omega
  obtain ⟨c, hc⟩ := dvd_trans (pow_dvd_pow 2 hle) hK
  have hq : (m - 1) / 2 ^ dropBits (m - 1) (m - 1) < c := by
    rw [Nat.div_lt_iff_lt_mul (two_pow_pos _)]
    rw [Nat.mul_comm]
    omega
  calc roundNat53 (m - 1)
      ≤ ((m - 1) / 2 ^ dropBits (m - 1) (m - 1) + 1) * 2 ^ dropBits (m - 1) (m - 1) :=
        roundNat53_le (m - 1)
    _ ≤ c * 2 ^ dropBits (m - 1) (m - 1) := Nat.mul_le_mul_right _ hq
    _ = m := by
        rw [Nat.mul_comm]
        exact hc.symm

/-- The result of rounding is a double. -/
theorem isDouble_roundDouble (x : Int) : isDouble (roundDouble x) := by
  unfold isDouble
  by_cases hx : 0 ≤ x
  · have h1 : roundDouble x = (roundNat53 x.toNat : Int) := by simp [roundDouble, hx]
    rw [h1]
    unfold roundDouble
    rw [if_pos (Int.ofNat_nonneg _), Int.toNat_ofNat, roundNat53_idem]
  · have h1 : roundDouble x = -(roundNat53 (-x).toNat : Int) := by simp [roundDouble, hx]
    rw [h1]
    by_cases hy : roundNat53 (-x).toNat = 0
    · rw [hy]
      decide
    · have hneg : ¬ (0 : Int) ≤ -(roundNat53 (-x).toNat : Int) := by omega
      unfold roundDouble
      rw [if_neg hneg, neg_neg, Int.toNat_ofNat, roundNat53_idem]

/-- After `i++` the counter is a double. -/
theorem isDouble_jsInc (i : Int) : isDouble (jsInc i) := isDouble_roundDouble (i + 1)

/-- On a double `i++` does not decrease the counter. -/
theorem le_jsInc (i : Int) (h : isDouble i) : i ≤ jsInc i := by
  unfold isDouble roundDouble at h
  unfold jsInc roundDouble
  by_cases hi : 0 ≤ i
  · rw [if_pos hi] at h
    rw [if_pos (by omega)]
    have hm : roundNat53 i.toNat = i.toNat := by omega
    have := roundNat53_succ_ge i.toNat hm
    have e : (i + 1).toNat = i.toNat + 1 := by omega
    rw [e]
    omega
  · rw [if_neg hi] at h
    have hm : roundNat53 (-i).toNat = (-i).toNat := by omega
    by_cases h0 : 0 ≤ i + 1
    · rw [if_pos h0]
      omega
    · rw [if_neg h0]
      have := roundNat53_pred_le (-i).toNat hm (by omega)
      have e : (-(i + 1)).toNat = (-i).toNat - 1 := by omega
      rw [e]
      omega

/-- A positive natural number stays positive when rounded. -/
theorem roundNat53_pos (m : Nat) (h : 0 < m) : 0 < roundNat53 m := by
  by_cases hlt : m < 9007199254740992
  · rw [roundNat53_of_lt m hlt]
    exact h
  · have hspec := (dropBits_spec m m (le_refl m)).2 (by omega)
    have hq : 4503599627370496 ≤ m / 2 ^ dropBits m m := by
      rw [Nat.le_div_iff_mul_le (two_pow_pos _)]
      exact hspec.1
    have hge := roundNat53_ge m
    have hpos : 0 < m / 2 ^ dropBits m m * 2 ^ dropBits m m :=
      Nat.mul_pos (by omega) (two_pow_pos _)
    omega

/-- Rounding keeps the sign: the rounded number is positive exactly when the
number is. -/
theorem roundDouble_pos (x : Int) : 0 < roundDouble x ↔ 0 < x := by
  unfold roundDouble
  by_cases hx : 0 ≤ x
  · rw [if_pos hx]
    by_cases h0 : x = 0
    · subst h0
      decide
    · have := roundNat53_pos x.toNat (by omega)
      omega
  · rw [if_neg hx]
    omega

/-- The test `end - start > 0` holds exactly when end is larger than start. -/
theorem jsSub_pos (a b : Int) : jsSub a b > 0 ↔ b < a := by
  unfold jsSub
  rw [gt_iff_lt, roundDouble_pos]
  omega

/-- Integers of magnitude below `2^53` are exact. -/
theorem roundDouble_of_lt (x : Int) (h1 : -9007199254740992 < x) (h2 : x < 9007199254740992) :
    roundDouble x = x := by
  unfold roundDouble
  by_cases hx : 0 ≤ x
  · rw [if_pos hx, roundNat53_of_lt x.toNat (by omega)]
    omega
  · rw [if_neg hx, roundNat53_of_lt (-x).toNat (by omega)]
    omega

/-- From `-2^53` up to `2^53 - 1` the step `i++` adds one. -/
theorem jsInc_exact (i : Int) (h1 : -9007199254740992 ≤ i) (h2 : i < 9007199254740992) :
    jsInc i = i + 1 := by
  unfold jsInc
  by_cases h : i + 1 = 9007199254740992
  · rw [h]
    decide
  · exact roundDouble_of_lt (i + 1) (by omega) (by omega)

/-- At `2^53` the step `i++` leaves the counter where it is. -/
theorem jsInc_two_pow_53 : jsInc 9007199254740992 = 9007199254740992 := by decide

/-- A counter that `i++` does not move and that passes the test never leaves
the loop. -/
theorem byteLoop_stuck (input : List Nat) (polynomial end_ i : Int)
    (hfix : jsInc i = i) (hle : i ≤ end_) :
    ∀ (fuel : Nat) (crc : Int), byteLoop input polynomial end_ fuel i crc = none := by
  intro fuel
  induction fuel with
  | zero => intro crc; rfl
  | succ n ih =>
    intro crc
    simp only [byteLoop, if_pos hle, hfix]
    exact ih _

/-- With the counter in the exact range the loop ends: `end - i + 1`
iterations and one more test. -/
theorem byteLoop_exit (input : List Nat) (polynomial end_ : Int)
    (hend : end_ < 9007199254740992) :
    ∀ (n fuel : Nat) (i crc : Int), -9007199254740992 ≤ i → (end_ - i + 1).toNat = n →
      n < fuel → ∃ r, byteLoop input polynomial end_ fuel i crc = some r := by
  intro n
  induction n with
  | zero =>
    intro fuel i crc _ hn hfuel
    obtain ⟨f, rfl⟩ : ∃ f, fuel = f + 1 := ⟨fuel - 1, by omega⟩
    have hgt : ¬ i ≤ end_ := by omega
    exact ⟨crc, by simp [byteLoop, hgt]⟩
  | succ n ih =>
    intro fuel i crc hi hn hfuel
    obtain ⟨f, rfl⟩ : ∃ f, fuel = f + 1 := ⟨fuel - 1, by omega⟩
    have hle : i ≤ end_ := by omega
    simp only [byteLoop, if_pos hle]
    rw [jsInc_exact i hi (by omega)]
    exact ih f (i + 1) _ (by omega) (by omega) (by omega)

/-- Whether the loop ends within the fuel depends on the counter alone, not on
the input, the polynomial or the register. -/
theorem byteLoop_isSome (a b : List Nat) (p1 p2 end_ : Int) :
    ∀ (fuel : Nat) (i c1 c2 : Int),
      (byteLoop a p1 end_ fuel i c1).isSome = (byteLoop b p2 end_ fuel i c2).isSome := by
  intro fuel
  induction fuel with
  | zero => intro i c1 c2; rfl
  | succ n ih =>
    intro i c1 c2
    by_cases hle : i ≤ end_
    · simp only [byteLoop, if_pos hle]
      exact ih _ _ _
    · simp [byteLoop, hle]

/-- The text `computeCRC32` returns, spelled out on the loop. -/
theorem computeCRC32_eq (fuel : Nat) (input : List Nat) (initial polynomial start end_ : Int) :
    computeCRC32 fuel input initial polynomial start end_ =
      if (byteLoop input polynomial end_ fuel start initial).isSome then some "CRC32"
      else none := by
  unfold computeCRC32 computeCRC32_crc computeCRC32_crc0
  cases byteLoop input polynomial end_ fuel start initial <;> rfl

/-- The outcome of `computeCRC32` does not depend on the input, the initial
value or the polynomial. -/
theorem computeCRC32_congr (fuel : Nat) (a b : List Nat) (i1 i2 p1 p2 start end_ : Int) :
    computeCRC32 fuel a i1 p1 start end_ = computeCRC32 fuel b i2 p2 start end_ := by
  rw [computeCRC32_eq, computeCRC32_eq, byteLoop_isSome a b p1 p2 end_ fuel start i1 i2]

/-- In the exact range `computeCRC32` returns "CRC32" once the fuel covers the
`end - start + 1` iterations and the last test. -/
theorem computeCRC32_exit (fuel : Nat) (input : List Nat) (initial polynomial start end_ : Int)
    (hs : -9007199254740992 ≤ start) (he : end_ < 9007199254740992)
    (hfuel : (end_ - start + 1).toNat < fuel) :
    computeCRC32 fuel input initial polynomial start end_ = some "CRC32" := by
  obtain ⟨r, hr⟩ := byteLoop_exit input polynomial end_ he (end_ - start + 1).toNat fuel start
    initial hs rfl hfuel
  rw [computeCRC32_eq, hr]
  rfl

/-- Whatever `computeCRC32` returns is the text "CRC32". -/
theorem computeCRC32_some (fuel : Nat) (input : List Nat) (initial polynomial start end_ : Int)
    (s : String) (h : computeCRC32 fuel input initial polynomial start end_ = some s) :
    s = "CRC32" := by
  rw [computeCRC32_eq] at h
  split_ifs at h
  exact (Option.some.inj h).symm

/-! ## Auxiliary lemmas: `run` -/

/-- The outcome of `run` when end is larger than start. -/
theorem run_of_gt (fuel : Nat) (input : List Nat) (args : Args) (h : args.start < args.end_) :
    run fuel input args =
      if args.bits = "8" then some (Except.ok "CRC8")
      else if args.bits = "16" then some (Except.ok "CRC16")
      else if args.bits = "32" then
        (computeCRC32 fuel input args.initial args.polynomial args.start args.end_).map Except.ok
      else some (Except.error "CRC size must be 8, 16 or 32 bits.") := by
  have h1 : ¬ args.end_ < args.start := by omega
  have h2 : jsSub args.end_ args.start > 0 := (jsSub_pos _ _).mpr h
  unfold run
  simp only [if_neg h1, if_pos h2, computeCRC8, computeCRC16]
  split_ifs
  · rfl
  · rfl
  · cases computeCRC32 fuel input args.initial args.polynomial args.start args.end_ <;> rfl
  · rfl

/-- The outcome of `run` when end is not larger than start. -/
theorem run_of_le (fuel : Nat) (input : List Nat) (args : Args) (h : args.end_ ≤ args.start) :
    run fuel input args =
      if args.end_ < args.start then
        some (Except.error "End index must be larger that start index.")
      else some (Except.error "Length of data to compute CRC over must be greater than 0.") := by
  have h2 : ¬ (jsSub args.end_ args.start > 0) := by
    rw [jsSub_pos]
    omega
  by_cases h1 : args.end_ < args.start
  · simp [run, h1]
  · simp only [run, if_neg h1, if_neg h2]

/-- Membership in the option list, spelled out. -/
theorem mem_BITS_OPTIONS (bits : String) :
    bits ∈ BITS_OPTIONS ↔ bits = "8" ∨ bits = "16" ∨ bits = "32" := by
  simp [BITS_OPTIONS]

/-- The traced `run` has the outcome of `run`. -/
theorem runTraced_snd (fuel : Nat) (input : List Nat) (args : Args) :
    (runTraced fuel input args).2 = run fuel input args := by
  unfold runTraced run
  simp only []
  split_ifs <;> rfl

/-- A failing call makes no call of a `computeCRC*` routine. -/
theorem runTraced_error (fuel : Nat) (input : List Nat) (args : Args) (e : String)
    (h : run fuel input args = some (Except.error e)) :
    (runTraced fuel input args).1 = [] := by
  by_cases hgt : args.start < args.end_
  · have h1 : ¬ args.end_ < args.start := by omega
    have h2 : jsSub args.end_ args.start > 0 := (jsSub_pos _ _).mpr hgt
    rw [run_of_gt fuel input args hgt] at h
    unfold runTraced
    simp only [if_neg h1, if_pos h2]
    split_ifs at h ⊢
    · cases h
    · cases h
    · cases hc : computeCRC32 fuel input args.initial args.polynomial args.start args.end_ with
      | none => rw [hc] at h; cases h
      | some v => rw [hc] at h; cases h
    · rfl
  · have h2 : ¬ (jsSub args.end_ args.start > 0) := by
      rw [jsSub_pos]
      omega
    unfold runTraced
    by_cases h1 : args.end_ < args.start
    · simp [h1]
    · simp only [if_neg h1, if_neg h2]

/-! ## Auxiliary lemmas: the register -/

/-- The body of the outer loop reads the input only at the index `i`. -/
theorem byteStep_congr (a b : List Nat) (polynomial i crc : Int)
    (h : index a i = index b i) :
    byteStep a polynomial i crc = byteStep b polynomial i crc := by
  simp [byteStep, h]

/-- The outer loop reads the input only at indices between its first counter
and `end`: from a counter that is a double, `i++` never steps back. -/
theorem byteLoop_congr (a b : List Nat) (polynomial start end_ : Int)
    (hagree : ∀ j : Int, start ≤ j → j ≤ end_ → index a j = index b j) :
    ∀ (fuel : Nat) (i crc : Int), isDouble i → start ≤ i →
      byteLoop a polynomial end_ fuel i crc = byteLoop b polynomial end_ fuel i crc := by
  intro fuel
  induction fuel with
  | zero => intro i crc _ _; rfl
  | succ n ih =>
    intro i crc hd hs
    by_cases hle : i ≤ end_
    · simp only [byteLoop, if_pos hle]
      rw [byteStep_congr a b polynomial i crc (hagree i hs hle)]
      exact ih (jsInc i) _ (isDouble_jsInc i) (le_trans hs (le_jsInc i hd))
    · simp [byteLoop, hle]

/-- ToUint32 sees its argument modulo `2^32`. -/
theorem toUint32_emod (x : Int) : toUint32 (x % 4294967296) = toUint32 x := by
  unfold toUint32
  rw [Int.emod_emod_of_dvd x (dvd_refl _)]

/-- The bit step sees the polynomial modulo `2^32`. -/
theorem bitStep_emod (polynomial crc : Int) :
    bitStep (polynomial % 4294967296) crc = bitStep polynomial crc := by
  simp [bitStep, jsAnd, toUint32_emod]

/-- The inner loop sees the polynomial modulo `2^32`. -/
theorem bitLoop_emod (polynomial : Int) :
    ∀ (n : Nat) (crc : Int),
      bitLoop (polynomial % 4294967296) n crc = bitLoop polynomial n crc := by
  intro n
  induction n with
  | zero => intro crc; rfl
  | succ n ih =>
    intro crc
    simp only [bitLoop]
    rw [bitStep_emod, ih]

/-- The body of the outer loop sees the polynomial and the register modulo
`2^32`. -/
theorem byteStep_emod (input : List Nat) (polynomial i crc : Int) :
    byteStep input (polynomial % 4294967296) i (crc % 4294967296)
      = byteStep input polynomial i crc := by
  simp [byteStep, jsXor, toUint32_emod, bitLoop_emod]

/-- The outer loop sees the polynomial modulo `2^32`. -/
theorem byteLoop_emod_poly (input : List Nat) (polynomial end_ : Int) :
    ∀ (fuel : Nat) (i crc : Int),
      byteLoop input (polynomial % 4294967296) end_ fuel i crc
        = byteLoop input polynomial end_ fuel i crc := by
  intro fuel
  induction fuel with
  | zero => intro i crc; rfl
  | succ n ih =>
    intro i crc
    by_cases hle : i ≤ end_
    · simp only [byteLoop, if_pos hle]
      rw [ih]
      congr 1
      simp [byteStep, bitLoop_emod]
    · simp [byteLoop, hle]

/-- Once the outer loop runs at least once, it sees the starting register
modulo `2^32` as well. -/
theorem byteLoop_emod (input : List Nat) (polynomial end_ : Int) (fuel : Nat) (i crc : Int)
    (hle : i ≤ end_) :
    byteLoop input (polynomial % 4294967296) end_ fuel i (crc % 4294967296)
      = byteLoop input polynomial end_ fuel i crc := by
  cases fuel with
  | zero => rfl
  | succ n =>
    simp only [byteLoop, if_pos hle]
    rw [byteLoop_emod_poly, byteStep_emod]

/-! ## Theorems -/

/-- C1 (code at the failing input): on the two-byte input `[0, 0]` with Bits
"16", initial value 0, polynomial 0x8408 and the range 0..1, `run` returns the
fixed text "CRC16", while the register of the reflected reduction is 0 and its
zero-padded four-digit hexadecimal string is "0000". -/
theorem C1_run_returns_placeholder :
    (∀ fuel, run fuel [0, 0] ⟨0, 0x8408, "16", 0, 1⟩ = some (Except.ok "CRC16"))
      ∧ specCRC 16 [0, 0] 0 0x8408 0 1 = 0
      ∧ specRun [0, 0] ⟨0, 0x8408, "16", 0, 1⟩ = "0000"
      ∧ (∀ fuel, run fuel [0, 0] ⟨0, 0x8408, "16", 0, 1⟩
          ≠ some (Except.ok (specRun [0, 0] ⟨0, 0x8408, "16", 0, 1⟩))) := by
  have hrun : ∀ fuel, run fuel [0, 0] ⟨0, 0x8408, "16", 0, 1⟩ = some (Except.ok "CRC16") := by
    intro fuel
    rw [run_of_gt fuel [0, 0] ⟨0, 0x8408, "16", 0, 1⟩ (by decide)]
    rfl
  refine ⟨hrun, by decide, by decide, ?_⟩
  intro fuel
  rw [hrun fuel]
  decide

/-- C2 (code at the failing input): on the ASCII bytes of "123456789" with
Bits "32", initial value 0xFFFFFFFF, polynomial 0xEDB88320 and the range 0..8,
`run` returns the fixed text "CRC32", not the hexadecimal string of 0xCBF43926
in either letter case; the register its loop ends with and drops has the
pattern 0xE385A895. -/
theorem C2_run_returns_placeholder :
    run 10 check123456789 ⟨0xFFFFFFFF, 0xEDB88320, "32", 0, 8⟩ = some (Except.ok "CRC32")
      ∧ run 10 check123456789 ⟨0xFFFFFFFF, 0xEDB88320, "32", 0, 8⟩
          ≠ some (Except.ok "cbf43926")
      ∧ run 10 check123456789 ⟨0xFFFFFFFF, 0xEDB88320, "32", 0, 8⟩
          ≠ some (Except.ok "CBF43926")
      ∧ computeCRC32_crc 10 check123456789 0xFFFFFFFF 0xEDB88320 0 8 = some (-477779819)
      ∧ toUint32 (-477779819) = 0xE385A895 := by
  refine ⟨by decide, by decide, by decide, by decide, by decide⟩

/-- C3: whenever the end index is smaller than the start index, `run` fails
with the end-before-start error, whatever the input and the other arguments. -/
theorem C3_end_before_start (fuel : Nat) (input : List Nat) (args : Args)
    (h : args.end_ < args.start) :
    run fuel input args = some (Except.error "End index must be larger that start index.") := by
  simp [run, h]

/-- Witness of C3 at start 5, end 2. -/
theorem C3_end_before_start_witness :
    run 0 [1, 2, 3, 4, 5, 6] ⟨0, 0x8408, "32", 5, 2⟩
      = some (Except.error "End index must be larger that start index.") :=
  C3_end_before_start 0 [1, 2, 3, 4, 5, 6] ⟨0, 0x8408, "32", 5, 2⟩ (by decide)

/-- C4: when start equals end, `run` fails with the length error, and `run`
returns a checksum only when end is larger than start. -/
theorem C4_single_byte_rejected (fuel : Nat) (input : List Nat) (args : Args) :
    (args.start = args.end_ →
        run fuel input args
          = some (Except.error "Length of data to compute CRC over must be greater than 0."))
      ∧ (∀ s, run fuel input args = some (Except.ok s) → args.end_ > args.start) := by
  constructor
  · intro h
    rw [run_of_le fuel input args (by omega), if_neg (by omega)]
  · intro s hs
    by_contra hle
    rw [run_of_le fuel input args (by omega)] at hs
    split_ifs at hs <;> cases hs

/-- Witness of C4: a single-byte range fails, and in a successful call the
end index is larger than the start index. -/
theorem C4_single_byte_rejected_witness :
    run 0 [1, 2, 3] ⟨0, 0x8408, "8", 1, 1⟩
        = some (Except.error "Length of data to compute CRC over must be greater than 0.")
      ∧ (2 : Int) > 0 :=
  ⟨(C4_single_byte_rejected 0 [1, 2, 3] ⟨0, 0x8408, "8", 1, 1⟩).1 rfl,
   (C4_single_byte_rejected 0 [1, 2, 3] ⟨0, 0x8408, "8", 0, 2⟩).2 "CRC8" (by decide)⟩

/-- C5: when the Bits argument is not one of the options "8", "16", "32",
`run` returns no checksum, and when also end is larger than start the error is
the unsupported-width error. -/
theorem C5_unsupported_width (fuel : Nat) (input : List Nat) (args : Args)
    (hb : args.bits ∉ BITS_OPTIONS) :
    (∃ e, run fuel input args = some (Except.error e))
      ∧ (∀ s, run fuel input args ≠ some (Except.ok s))
      ∧ (args.end_ > args.start →
          run fuel input args = some (Except.error "CRC size must be 8, 16 or 32 bits.")) := by
  rw [mem_BITS_OPTIONS] at hb
  push_neg at hb
  have hgt : args.start < args.end_ →
      run fuel input args = some (Except.error "CRC size must be 8, 16 or 32 bits.") := by
    intro h
    rw [run_of_gt fuel input args h, if_neg hb.1, if_neg hb.2.1, if_neg hb.2.2]
  have key : ∃ e, run fuel input args = some (Except.error e) := by
    by_cases h : args.start < args.end_
    · exact ⟨"CRC size must be 8, 16 or 32 bits.", hgt h⟩
    · rw [run_of_le fuel input args (by omega)]
      by_cases h1 : args.end_ < args.start
      · exact ⟨"End index must be larger that start index.", by rw [if_pos h1]⟩
      · exact ⟨"Length of data to compute CRC over must be greater than 0.",
          by rw [if_neg h1]⟩
  refine ⟨key, ?_, hgt⟩
  intro s hs
  obtain ⟨e, he⟩ := key
  rw [he] at hs
  cases hs

/-- Witness of C5 at Bits "24" on the range 0..1. -/
theorem C5_unsupported_width_witness :
    (∃ e, run 0 [1, 2] ⟨0, 0x8408, "24", 0, 1⟩ = some (Except.error e))
      ∧ (∀ s, run 0 [1, 2] ⟨0, 0x8408, "24", 0, 1⟩ ≠ some (Except.ok s))
      ∧ ((1 : Int) > 0 →
          run 0 [1, 2] ⟨0, 0x8408, "24", 0, 1⟩
            = some (Except.error "CRC size must be 8, 16 or 32 bits.")) :=
  C5_unsupported_width 0 [1, 2] ⟨0, 0x8408, "24", 0, 1⟩ (by decide)

/-- C6 (counterexample): on the two-byte input `[1, 2]` with Bits "32" and the
range 0..2, whose end index equals the length of the input, `run` returns a
result and no fuel makes it raise an error. -/
theorem C6_counterexample :
    ((2 : Int) = ([1, 2] : List Nat).length)
      ∧ run 4 [1, 2] ⟨0, 0x8408, "32", 0, 2⟩ = some (Except.ok "CRC32")
      ∧ ¬ ∃ fuel e, run fuel [1, 2] ⟨0, 0x8408, "32", 0, 2⟩ = some (Except.error e) := by
  refine ⟨by decide, by decide, ?_⟩
  rintro ⟨fuel, e, he⟩
  rw [run_of_gt fuel [1, 2] ⟨0, 0x8408, "32", 0, 2⟩ (by decide)] at he
  simp only [if_neg (show ¬ ("32" = "8") by decide), if_neg (show ¬ ("32" = "16") by decide),
    if_pos] at he
  cases hc : computeCRC32 fuel [1, 2] 0 0x8408 0 2 with
  | none => rw [hc] at he; cases he
  | some v => rw [hc] at he; cases he

/-- C6 (amended): when start or end lies outside `[0, n)` for an input of
length `n`, no bounds check is made: `run` fails with the end-before-start
error when end is smaller than start, with the length error when end equals
start, with the unsupported-width error when end is larger than start and Bits
is not an option; when end is larger than start it returns a result for Bits
"8" and "16", and for Bits "32" when `-2^53 <= start`, `end < 2^53` and the
fuel covers the `end - start + 1` iterations of the loop. -/
theorem C6_amended (fuel : Nat) (input : List Nat) (args : Args)
    (_hout : args.start < 0 ∨ (input.length : Int) ≤ args.start
      ∨ args.end_ < 0 ∨ (input.length : Int) ≤ args.end_) :
    (args.end_ < args.start →
        run fuel input args
          = some (Except.error "End index must be larger that start index."))
      ∧ (args.end_ = args.start →
        run fuel input args
          = some (Except.error "Length of data to compute CRC over must be greater than 0."))
      ∧ (args.start < args.end_ → args.bits ∉ BITS_OPTIONS →
        run fuel input args = some (Except.error "CRC size must be 8, 16 or 32 bits."))
      ∧ (args.start < args.end_ → args.bits ∈ BITS_OPTIONS →
        (args.bits = "32" → -9007199254740992 ≤ args.start ∧ args.end_ < 9007199254740992
          ∧ (args.end_ - args.start + 1).toNat < fuel) →
        ∃ s, run fuel input args = some (Except.ok s)) := by
  refine ⟨?_, ?_, ?_, ?_⟩
  · intro h
    rw [run_of_le fuel input args (by omega), if_pos h]
  · intro h
    rw [run_of_le fuel input args (by omega), if_neg (by omega)]
  · intro h hb
    rw [mem_BITS_OPTIONS] at hb
    push_neg at hb
    rw [run_of_gt fuel input args h, if_neg hb.1, if_neg hb.2.1, if_neg hb.2.2]
  · intro h hb hsafe
    rw [mem_BITS_OPTIONS] at hb
    rw [run_of_gt fuel input args h]
    by_cases h8 : args.bits = "8"
    · exact ⟨"CRC8", by rw [if_pos h8]⟩
    · by_cases h16 : args.bits = "16"
      · exact ⟨"CRC16", by rw [if_neg h8, if_pos h16]⟩
      · have h32 : args.bits = "32" := by
          rcases hb with hb | hb | hb
          · exact absurd hb h8
          · exact absurd hb h16
          · exact hb
        obtain ⟨hs, he, hf⟩ := hsafe h32
        refine ⟨"CRC32", ?_⟩
        rw [if_neg h8, if_neg h16, if_pos h32,
          computeCRC32_exit fuel input args.initial args.polynomial args.start args.end_ hs he hf]
        rfl

/-- Witness of C6 (amended) at the end index 2 of a two-byte input. -/
theorem C6_amended_witness :
    ((0 : Int) < 0 ∨ (([1, 2] : List Nat).length : Int) ≤ 0
        ∨ (2 : Int) < 0 ∨ (([1, 2] : List Nat).length : Int) ≤ 2)
      ∧ ∃ s, run 4 [1, 2] ⟨0, 0x8408, "32", 0, 2⟩ = some (Except.ok s) :=
  ⟨by decide,
   (C6_amended 4 [1, 2] ⟨0, 0x8408, "32", 0, 2⟩ (by decide)).2.2.2 (by decide) (by decide)
     (fun _ => ⟨by decide, by decide, by decide⟩)⟩

/-- C7 (code at the failing input): on the input `[0x31, 0x32]` with Bits "8"
and the range 0..1, `run` succeeds with the text "CRC8", which has four
characters where the width asks for 8/4 = 2 digits, and which is not made of
hexadecimal digits. -/
theorem C7_result_not_hex :
    (∀ fuel, run fuel [0x31, 0x32] ⟨0, 0x8408, "8", 0, 1⟩ = some (Except.ok "CRC8"))
      ∧ "CRC8".length = 4
      ∧ widthOf "8" / 4 = 2
      ∧ "CRC8".toList.all isHexDigit = false := by
  refine ⟨?_, by decide, by decide, by decide⟩
  intro fuel
  rw [run_of_gt fuel [0x31, 0x32] ⟨0, 0x8408, "8", 0, 1⟩ (by decide)]
  rfl

/-- C8: two inputs of the same length that agree at every index of
`[start, end]` give the same outcome of `run` (the same result, the same
error, or no return alike), and, for a start index that is a double, the same
register at the end of the loop of `computeCRC32`. -/
theorem C8_range_isolation (a b : List Nat) (args : Args)
    (_hlen : a.length = b.length)
    (hagree : ∀ i : Int, args.start ≤ i → i ≤ args.end_ → index a i = index b i) :
    (∀ fuel, run fuel a args = run fuel b args)
      ∧ (isDouble args.start →
          ∀ fuel, computeCRC32_crc fuel a args.initial args.polynomial args.start args.end_
            = computeCRC32_crc fuel b args.initial args.polynomial args.start args.end_) := by
  constructor
  · intro fuel
    unfold run
    simp only [computeCRC8, computeCRC16]
    rw [computeCRC32_congr fuel a b args.initial args.initial args.polynomial args.polynomial]
  · intro hd fuel
    unfold computeCRC32_crc
    exact byteLoop_congr a b args.polynomial args.start args.end_ hagree fuel args.start _ hd
      (le_refl _)

/-- Witness of C8: two four-byte inputs that differ at the indices 0 and 3 and
agree on the range 1..2. -/
theorem C8_range_isolation_witness :
    run 3 [1, 2, 3, 9] ⟨0xFFFFFFFF, 0xEDB88320, "32", 1, 2⟩
        = run 3 [7, 2, 3, 4] ⟨0xFFFFFFFF, 0xEDB88320, "32", 1, 2⟩
      ∧ isDouble 1
      ∧ computeCRC32_crc 3 [1, 2, 3, 9] 0xFFFFFFFF 0xEDB88320 1 2
          = computeCRC32_crc 3 [7, 2, 3, 4] 0xFFFFFFFF 0xEDB88320 1 2 :=
  have hagree : ∀ i : Int, (1 : Int) ≤ i → i ≤ 2 →
      index [1, 2, 3, 9] i = index [7, 2, 3, 4] i := by
    intro i h1 h2
    have hi : i = 1 ∨ i = 2 := by omega
    rcases hi with rfl | rfl <;> rfl
  ⟨(C8_range_isolation [1, 2, 3, 9] [7, 2, 3, 4] ⟨0xFFFFFFFF, 0xEDB88320, "32", 1, 2⟩ rfl
      hagree).1 3,
   by decide,
   (C8_range_isolation [1, 2, 3, 9] [7, 2, 3, 4] ⟨0xFFFFFFFF, 0xEDB88320, "32", 1, 2⟩ rfl
      hagree).2 (by decide) 3⟩

/-- C9: `highlight` and `highlightReverse` return their position list
unchanged, so each undoes the other. -/
theorem C9_highlight_identity (pos : List Pos) (args : Args) :
    highlight pos args = pos
      ∧ highlightReverse pos args = pos
      ∧ highlightReverse (highlight pos args) args = pos
      ∧ highlight (highlightReverse pos args) args = pos :=
  ⟨rfl, rfl, rfl, rfl⟩

/-- C10 (code at the failing inputs): one iteration of the inner loop of
`computeCRC32` is not the reflected reduction step.  With `crc = 0` (low bit 0)
and polynomial 0xEDB88320 the new register has the pattern 0xEDB88320 where
the reduction step gives 0; with `crc = 1` (low bit 1) and polynomial 1 it is 0
where the reduction step gives 1; with the pattern 0x80000000 and polynomial 0
it has the pattern 0xC0000000 where the logical shift gives 0x40000000. -/
theorem C10_bitStep_not_reflected :
    (bitStep 0xEDB88320 0 = -306674912
        ∧ toUint32 (bitStep 0xEDB88320 0) = 0xEDB88320
        ∧ specBitStep 32 0xEDB88320 0 = 0)
      ∧ (bitStep 1 1 = 0 ∧ specBitStep 32 1 1 = 1)
      ∧ (toUint32 (bitStep 0 (ofUint32 0x80000000)) = 0xC0000000
        ∧ specBitStep 32 0 0x80000000 = 0x40000000) := by
  refine ⟨⟨by decide, by decide, by decide⟩, ⟨by decide, by decide⟩, ⟨by decide, by decide⟩⟩

/-- C11 (counterexample): with Bits "32", start `2^53` and end `2^53 + 2`, both
doubles with end larger than start, `run` neither returns a string nor raises
an error: the counter stays at `2^53` and no fuel gives an outcome. -/
theorem C11_counterexample :
    isDouble 9007199254740992
      ∧ isDouble 9007199254740994
      ∧ (9007199254740994 : Int) > 9007199254740992
      ∧ "32" ∈ BITS_OPTIONS
      ∧ jsInc 9007199254740992 = 9007199254740992
      ∧ ¬ ∃ fuel r,
          run fuel [1, 2] ⟨0, 0x8408, "32", 9007199254740992, 9007199254740994⟩ = some r := by
  refine ⟨by decide, by decide, by decide, by decide, by decide, ?_⟩
  rintro ⟨fuel, r, hr⟩
  rw [run_of_gt fuel [1, 2] ⟨0, 0x8408, "32", 9007199254740992, 9007199254740994⟩
    (by decide)] at hr
  simp only [if_neg (show ¬ ("32" = "8") by decide), if_neg (show ¬ ("32" = "16") by decide),
    if_pos] at hr
  rw [computeCRC32_eq, byteLoop_stuck [1, 2] 0x8408 9007199254740994 9007199254740992
    jsInc_two_pow_53 (by decide) fuel 0] at hr
  cases hr

/-- C11 (amended): when, for Bits "32", the indices satisfy `-2^53 <= start`
and `end < 2^53`, `run` returns a string exactly when end is larger than start
and Bits is one of "8", "16", "32", it raises an error exactly in every other
case, and it does return once the fuel covers the iterations of the loop. -/
theorem C11_amended (input : List Nat) (args : Args)
    (hsafe : args.bits = "32" →
      -9007199254740992 ≤ args.start ∧ args.end_ < 9007199254740992) :
    ((∃ fuel s, run fuel input args = some (Except.ok s))
        ↔ (args.end_ > args.start ∧ args.bits ∈ BITS_OPTIONS))
      ∧ ((∃ fuel e, run fuel input args = some (Except.error e))
        ↔ ¬ (args.end_ > args.start ∧ args.bits ∈ BITS_OPTIONS))
      ∧ (∀ fuel, (args.end_ - args.start + 1).toNat < fuel →
          ∃ r, run fuel input args = some r) := by
  have hret : ∀ fuel, (args.end_ - args.start + 1).toNat < fuel →
      args.start < args.end_ → args.bits = "32" →
      run fuel input args = some (Except.ok "CRC32") := by
    intro fuel hf hgt h32
    obtain ⟨hs, he⟩ := hsafe h32
    rw [run_of_gt fuel input args hgt, h32,
      computeCRC32_exit fuel input args.initial args.polynomial args.start args.end_ hs he hf]
    rfl
  rw [mem_BITS_OPTIONS]
  by_cases hgt : args.start < args.end_
  · by_cases h8 : args.bits = "8"
    · have hrun : ∀ fuel, run fuel input args = some (Except.ok "CRC8") := by
        intro fuel
        rw [run_of_gt fuel input args hgt, if_pos h8]
      refine ⟨?_, ?_, fun fuel _ => ⟨_, hrun fuel⟩⟩
      · exact ⟨fun _ => ⟨hgt, Or.inl h8⟩, fun _ => ⟨0, "CRC8", hrun 0⟩⟩
      · constructor
        · rintro ⟨fuel, e, he⟩
          rw [hrun fuel] at he
          cases he
        · intro hn
          exact absurd ⟨hgt, Or.inl h8⟩ hn
    · by_cases h16 : args.bits = "16"
      · have hrun : ∀ fuel, run fuel input args = some (Except.ok "CRC16") := by
          intro fuel
          rw [run_of_gt fuel input args hgt, if_neg h8, if_pos h16]
        refine ⟨?_, ?_, fun fuel _ => ⟨_, hrun fuel⟩⟩
        · exact ⟨fun _ => ⟨hgt, Or.inr (Or.inl h16)⟩, fun _ => ⟨0, "CRC16", hrun 0⟩⟩
        · constructor
          · rintro ⟨fuel, e, he⟩
            rw [hrun fuel] at he
            cases he
          · intro hn
            exact absurd ⟨hgt, Or.inr (Or.inl h16)⟩ hn
      · by_cases h32 : args.bits = "32"
        · refine ⟨?_, ?_, fun fuel hf => ⟨_, hret fuel hf hgt h32⟩⟩
          · exact ⟨fun _ => ⟨hgt, Or.inr (Or.inr h32)⟩,
              fun _ => ⟨_, "CRC32", hret _ (Nat.lt_succ_self _) hgt h32⟩⟩
          · constructor
            · rintro ⟨fuel, e, he⟩
              rw [run_of_gt fuel input args hgt, if_neg h8, if_neg h16, if_pos h32] at he
              cases hc : computeCRC32 fuel input args.initial args.polynomial args.start
                  args.end_ with
              | none => rw [hc] at he; cases he
              | some v => rw [hc] at he; cases he
            · intro hn
              exact absurd ⟨hgt, Or.inr (Or.inr h32)⟩ hn
        · have hrun : ∀ fuel, run fuel input args
              = some (Except.error "CRC size must be 8, 16 or 32 bits.") := by
            intro fuel
            rw [run_of_gt fuel input args hgt, if_neg h8, if_neg h16, if_neg h32]
          refine ⟨?_, ?_, fun fuel _ => ⟨_, hrun fuel⟩⟩
          · constructor
            · rintro ⟨fuel, s, hs⟩
              rw [hrun fuel] at hs
              cases hs
            · rintro ⟨_, hb⟩
              rcases hb with hb | hb | hb
              · exact absurd hb h8
              · exact absurd hb h16
              · exact absurd hb h32
          · constructor
            · intro _
              rintro ⟨_, hb⟩
              rcases hb with hb | hb | hb
              · exact absurd hb h8
              · exact absurd hb h16
              · exact absurd hb h32
            · intro _
              exact ⟨0, _, hrun 0⟩
  · have hrun : ∀ fuel, ∃ e, run fuel input args = some (Except.error e) := by
      intro fuel
      rw [run_of_le fuel input args (by omega)]
      by_cases h1 : args.end_ < args.start
      · exact ⟨_, by rw [if_pos h1]⟩
      · exact ⟨_, by rw [if_neg h1]⟩
    refine ⟨?_, ?_, fun fuel _ => ?_⟩
    · constructor
      · rintro ⟨fuel, s, hs⟩
        obtain ⟨e, he⟩ := hrun fuel
        rw [he] at hs
        cases hs
      · rintro ⟨h, _⟩
        exact absurd h hgt
    · constructor
      · intro _
        rintro ⟨h, _⟩
        exact absurd h hgt
      · intro _
        obtain ⟨e, he⟩ := hrun 0
        exact ⟨0, e, he⟩
    · obtain ⟨e, he⟩ := hrun fuel
      exact ⟨_, he⟩

/-- Witness of C11 (amended) on the range 0..1 with Bits "32": the indices are
in the exact range and `run` returns a string. -/
theorem C11_amended_witness :
    ((-9007199254740992 : Int) ≤ 0 ∧ (1 : Int) < 9007199254740992)
      ∧ ∃ fuel s, run fuel [1, 2] ⟨0, 0x8408, "32", 0, 1⟩ = some (Except.ok s) :=
  ⟨by decide,
   (C11_amended [1, 2] ⟨0, 0x8408, "32", 0, 1⟩ (fun _ => by decide)).1.mpr
     ⟨by decide, by decide⟩⟩

/-- C12: on a range with end larger than start, whatever `run` returns is the
text fixed by Bits alone: "CRC8" for "8", "CRC16" for "16", "CRC32" for "32".
For "8" and "16" it returns it with any fuel, for "32" once the loop has ended,
which it does for `-2^53 <= start` and `end < 2^53`.  Any other input, initial
value and polynomial give the same outcome. -/
theorem C12_result_constant (input : List Nat) (args : Args)
    (h : args.end_ > args.start) :
    (∀ fuel s, run fuel input args = some (Except.ok s) →
        (args.bits = "8" ∧ s = "CRC8") ∨ (args.bits = "16" ∧ s = "CRC16")
          ∨ (args.bits = "32" ∧ s = "CRC32"))
      ∧ (args.bits = "8" → ∀ fuel, run fuel input args = some (Except.ok "CRC8"))
      ∧ (args.bits = "16" → ∀ fuel, run fuel input args = some (Except.ok "CRC16"))
      ∧ (args.bits = "32" → -9007199254740992 ≤ args.start → args.end_ < 9007199254740992 →
          ∀ fuel, (args.end_ - args.start + 1).toNat < fuel →
            run fuel input args = some (Except.ok "CRC32"))
      ∧ (∀ (fuel : Nat) (input2 : List Nat) (initial2 polynomial2 : Int),
          run fuel input2 { args with initial := initial2, polynomial := polynomial2 }
            = run fuel input args) := by
  refine ⟨?_, ?_, ?_, ?_, ?_⟩
  · intro fuel s hs
    rw [run_of_gt fuel input args h] at hs
    by_cases h8 : args.bits = "8"
    · rw [if_pos h8] at hs
      cases hs
      exact Or.inl ⟨h8, rfl⟩
    · by_cases h16 : args.bits = "16"
      · rw [if_neg h8, if_pos h16] at hs
        cases hs
        exact Or.inr (Or.inl ⟨h16, rfl⟩)
      · by_cases h32 : args.bits = "32"
        · rw [if_neg h8, if_neg h16, if_pos h32] at hs
          cases hc : computeCRC32 fuel input args.initial args.polynomial args.start
              args.end_ with
          | none => rw [hc] at hs; cases hs
          | some v =>
            rw [hc] at hs
            have hv := computeCRC32_some fuel input args.initial args.polynomial args.start
              args.end_ v hc
            cases hs
            exact Or.inr (Or.inr ⟨h32, hv⟩)
        · rw [if_neg h8, if_neg h16, if_neg h32] at hs
          cases hs
  · intro hb fuel
    rw [run_of_gt fuel input args h, if_pos hb]
  · intro hb fuel
    have h8 : ¬ args.bits = "8" := by rw [hb]; decide
    rw [run_of_gt fuel input args h, if_neg h8, if_pos hb]
  · intro hb hs he fuel hf
    have h8 : ¬ args.bits = "8" := by rw [hb]; decide
    have h16 : ¬ args.bits = "16" := by rw [hb]; decide
    rw [run_of_gt fuel input args h, if_neg h8, if_neg h16, if_pos hb,
      computeCRC32_exit fuel input args.initial args.polynomial args.start args.end_ hs he hf]
    rfl
  · intro fuel input2 initial2 polynomial2
    unfold run
    simp only [computeCRC8, computeCRC16]
    rw [computeCRC32_congr fuel input2 input initial2 args.initial polynomial2 args.polynomial]

/-- Witness of C12: two inputs that differ inside the range 0..1 both get
"CRC32" with Bits "32". -/
theorem C12_result_constant_witness :
    ((1 : Int) > 0)
      ∧ run 3 [1, 2] ⟨0, 0x8408, "32", 0, 1⟩ = some (Except.ok "CRC32")
      ∧ run 3 [7, 9] ⟨0xFFFFFFFF, 0xEDB88320, "32", 0, 1⟩
          = run 3 [1, 2] ⟨0, 0x8408, "32", 0, 1⟩ :=
  ⟨by decide,
   (C12_result_constant [1, 2] ⟨0, 0x8408, "32", 0, 1⟩ (by decide)).2.2.2.1 rfl
     (by decide) (by decide) 3 (by decide),
   (C12_result_constant [1, 2] ⟨0, 0x8408, "32", 0, 1⟩ (by decide)).2.2.2.2
     3 [7, 9] 0xFFFFFFFF 0xEDB88320⟩

/-- C13: for a Bits value that is not an option, the range is checked first:
end smaller than start gives the end-before-start error, end equal to start
gives the length error, and the unsupported-width error is raised exactly when
end is larger than start; a failing call makes no `computeCRC*` call. -/
theorem C13_range_before_width (fuel : Nat) (input : List Nat) (args : Args)
    (hb : args.bits ∉ BITS_OPTIONS) :
    (args.end_ < args.start →
        run fuel input args
          = some (Except.error "End index must be larger that start index."))
      ∧ (args.end_ = args.start →
        run fuel input args
          = some (Except.error "Length of data to compute CRC over must be greater than 0."))
      ∧ (run fuel input args = some (Except.error "CRC size must be 8, 16 or 32 bits.")
          ↔ args.end_ > args.start)
      ∧ (runTraced fuel input args).2 = run fuel input args
      ∧ (∀ e, run fuel input args = some (Except.error e) →
          (runTraced fuel input args).1 = []) := by
  rw [mem_BITS_OPTIONS] at hb
  push_neg at hb
  refine ⟨?_, ?_, ?_, runTraced_snd fuel input args, ?_⟩
  · intro h
    rw [run_of_le fuel input args (by omega), if_pos h]
  · intro h
    rw [run_of_le fuel input args (by omega), if_neg (by omega)]
  · constructor
    · intro hrun
      by_contra hgt
      rw [run_of_le fuel input args (by omega)] at hrun
      by_cases h1 : args.end_ < args.start
      · rw [if_pos h1] at hrun
        exact absurd hrun (by decide)
      · rw [if_neg h1] at hrun
        exact absurd hrun (by decide)
    · intro hgt
      rw [run_of_gt fuel input args hgt, if_neg hb.1, if_neg hb.2.1, if_neg hb.2.2]
  · intro e he
    exact runTraced_error fuel input args e he

/-- Witness of C13 at Bits "24": the range 5..2 gives the end-before-start
error, the range 3..3 the length error, the range 0..1 the unsupported-width
error, and the failing call logs no routine. -/
theorem C13_range_before_width_witness :
    run 0 [1, 2] ⟨0, 0x8408, "24", 5, 2⟩
        = some (Except.error "End index must be larger that start index.")
      ∧ run 0 [1, 2] ⟨0, 0x8408, "24", 3, 3⟩
        = some (Except.error "Length of data to compute CRC over must be greater than 0.")
      ∧ run 0 [1, 2] ⟨0, 0x8408, "24", 0, 1⟩
        = some (Except.error "CRC size must be 8, 16 or 32 bits.")
      ∧ (runTraced 0 [1, 2] ⟨0, 0x8408, "24", 0, 1⟩).1 = [] :=
  ⟨(C13_range_before_width 0 [1, 2] ⟨0, 0x8408, "24", 5, 2⟩ (by decide)).1 (by decide),
   (C13_range_before_width 0 [1, 2] ⟨0, 0x8408, "24", 3, 3⟩ (by decide)).2.1 rfl,
   (C13_range_before_width 0 [1, 2] ⟨0, 0x8408, "24", 0, 1⟩ (by decide)).2.2.1.mpr
     (by decide),
   (C13_range_before_width 0 [1, 2] ⟨0, 0x8408, "24", 0, 1⟩ (by decide)).2.2.2.2
     "CRC size must be 8, 16 or 32 bits." (by decide)⟩

/-- C14: with the declared default arguments (initial value 0, polynomial
0x8408, start 0, end 0) `run` fails with the length error for every input and
every value of Bits. -/
theorem C14_defaults_fail (fuel : Nat) (input : List Nat) (bits : String) :
    defaultArgs bits = ⟨0, 0x8408, bits, 0, 0⟩
      ∧ run fuel input (defaultArgs bits)
          = some (Except.error "Length of data to compute CRC over must be greater than 0.")
      := by
  constructor
  · rfl
  · rw [run_of_le fuel input (defaultArgs bits) (le_refl _)]
    rfl

/-- C15 (counterexample): with the initial value `2^32 + 5` the register of
`computeCRC32` before the first iteration of its loop is `2^32 + 5`, not the
masked value 5; when the loop makes no iteration that is the register it ends
with. -/
theorem C15_counterexample :
    computeCRC32_crc0 4294967301 = 4294967301
      ∧ (4294967301 : Int) % 4294967296 = 5
      ∧ toUint32 4294967301 &&& 0xFFFFFFFF = 5
      ∧ computeCRC32_crc0 4294967301 ≠ 4294967301 % 4294967296
      ∧ computeCRC32_crc 1 [1, 2] 4294967301 0x8408 0 (-1) = some 4294967301 := by
  refine ⟨by decide, by decide, by decide, by decide, by decide⟩

/-- C15 (amended): for a range with start not larger than end and non-negative
initial value and polynomial, the register of `computeCRC32` after its loop is
the one obtained from `initial mod 2^32` and `polynomial mod 2^32`; the
register starts out as `initial` itself, and the first XOR with a byte reduces
it modulo `2^32`.  For `-2^53 <= start` and `end < 2^53` the loop ends and
leaves a register. -/
theorem C15_amended (input : List Nat) (initial polynomial start end_ : Int)
    (h : start ≤ end_) (_hi : 0 ≤ initial) (_hp : 0 ≤ polynomial) :
    (∀ fuel, computeCRC32_crc fuel input initial polynomial start end_
        = computeCRC32_crc fuel input (initial % 4294967296) (polynomial % 4294967296)
            start end_)
      ∧ computeCRC32_crc0 initial = initial
      ∧ jsXor initial (elemToInt (index input start))
        = jsXor (initial % 4294967296) (elemToInt (index input start))
      ∧ (-9007199254740992 ≤ start → end_ < 9007199254740992 →
          ∀ fuel, (end_ - start + 1).toNat < fuel →
            ∃ r, computeCRC32_crc fuel input initial polynomial start end_ = some r) := by
  refine ⟨?_, rfl, ?_, ?_⟩
  · intro fuel
    unfold computeCRC32_crc computeCRC32_crc0
    exact (byteLoop_emod input polynomial end_ fuel start initial h).symm
  · simp [jsXor, toUint32_emod]
  · intro hs he fuel hf
    unfold computeCRC32_crc
    exact byteLoop_exit input polynomial end_ he (end_ - start + 1).toNat fuel start _ hs rfl hf

/-- Witness of C15 (amended) at the initial value `2^32 + 5` and the polynomial
`2^32 + 0x8408` on the range 0..1. -/
theorem C15_amended_witness :
    ((0 : Int) ≤ 1)
      ∧ computeCRC32_crc 3 [1, 2] 4294967301 4295001096 0 1
          = computeCRC32_crc 3 [1, 2] (4294967301 % 4294967296) (4295001096 % 4294967296) 0 1
      ∧ ∃ r, computeCRC32_crc 3 [1, 2] 4294967301 4295001096 0 1 = some r :=
  ⟨by decide,
   (C15_amended [1, 2] 4294967301 4295001096 0 1 (by decide) (by decide) (by decide)).1 3,
   (C15_amended [1, 2] 4294967301 4295001096 0 1 (by decide) (by decide) (by decide)).2.2.2
     (by decide) (by decide) 3 (by decide)⟩

end MultiCRC
